import Mathlib

/-!
Verification of the linkly URL shortener core against its specification.

The definitions below are a shallow embedding of the repository source:
the Base62 codec (`src/lib/id-generator.js`), the write pipeline
(`src/services/url-service.js`), the read pipeline
(`src/services/redirect-service.js`), the expiry validation of the
`POST /api/shorten` route (`src/routes.js`), and the in-memory cache
client (`src/cache/client.js`).  JavaScript numbers are modelled as
`Nat`/`Int`, thrown exceptions as `Except`, and the persistent store as
a list of records with a next-id counter.
-/

namespace Linkly

/-- The 62-symbol alphabet of `id-generator.js`: digits, then lowercase,
then uppercase. -/
def BASE62_ALPHABET : List Char :=
  "0123456789abcdefghijklmnopqrstuvwxyzABCDEFGHIJKLMNOPQRSTUVWXYZ".toList

/-- `BASE = 62` from `id-generator.js`. -/
def BASE : Nat := 62

/-- The digit character for value `d` (the JS indexing
`BASE62_ALPHABET[num % BASE]`). -/
def idChar (d : Nat) : Char := BASE62_ALPHABET.getD d ' '

/-- The numeric value of a digit character (the JS
`BASE62_ALPHABET.indexOf(char)`). -/
def charVal (c : Char) : Nat := BASE62_ALPHABET.indexOf c

/-- The `while (num > 0)` loop of `idToBase62`: prepend the digit for
`num % BASE` and continue with `num / BASE` (integer division, as
`Math.floor(num / BASE)` on non-negative numbers). -/
def idToBase62Aux (num : Nat) (acc : List Char) : List Char :=
  if _h : num = 0 then acc
  else idToBase62Aux (num / BASE) (idChar (num % BASE) :: acc)
decreasing_by exact Nat.div_lt_self (Nat.pos_of_ne_zero _h) (by decide)

/-- `idToBase62` on its documented domain (non-negative integers):
`0` maps to the first alphabet symbol, positive ids run the loop. -/
def idToBase62 (id : Nat) : String :=
  if id = 0 then String.mk [idChar 0]
  else String.mk (idToBase62Aux id [])

/-- `base62ToId`: reject the empty string, reject any character outside
the alphabet, otherwise accumulate `result = result * BASE + value`
left to right. -/
def base62ToId (s : String) : Except String Nat :=
  if s.length = 0 then
    Except.error "Input must be a non-empty string"
  else if s.toList.all (fun c => BASE62_ALPHABET.contains c) then
    Except.ok (s.toList.foldl (fun r c => r * BASE + charVal c) 0)
  else
    Except.error "Invalid Base62 character"

/-- A JavaScript value at the dynamically typed boundary of the codec:
a string, an integer number, a non-integer number (for which
`Number.isInteger` is false), or any other value. -/
inductive JSValue where
  | str (s : String)
  | intNum (n : Int)
  | nonIntNum
  | other
deriving DecidableEq, Repr

/-- `idToBase62` including its argument check
`!Number.isInteger(id) || id < 0`. -/
def idToBase62Js : JSValue → Except String String
  | JSValue.intNum n =>
      if n < 0 then Except.error "ID must be a positive integer"
      else Except.ok (idToBase62 n.toNat)
  | _ => Except.error "ID must be a positive integer"

/-- `base62ToId` including its argument check
`typeof str !== 'string'`. -/
def base62ToIdJs : JSValue → Except String Nat
  | JSValue.str s => base62ToId s
  | _ => Except.error "Input must be a non-empty string"

/-! Lemmas about the encoding loop. -/

lemma aux_zero (acc : List Char) : idToBase62Aux 0 acc = acc := by
  rw [idToBase62Aux]; simp

lemma aux_pos (n : Nat) (hn : n ≠ 0) (acc : List Char) :
    idToBase62Aux n acc = idToBase62Aux (n / BASE) (idChar (n % BASE) :: acc) := by
  conv_lhs => rw [idToBase62Aux]
  simp [hn]

lemma aux_append (n : Nat) : ∀ acc : List Char,
    idToBase62Aux n acc = idToBase62Aux n [] ++ acc := by
  induction n using Nat.strong_induction_on with
  | _ n ih =>
    intro acc
    by_cases hn : n = 0
    · subst hn; simp [aux_zero]
    · have hlt : n / BASE < n := Nat.div_lt_self (Nat.pos_of_ne_zero hn) (by decide)
      rw [aux_pos n hn acc, aux_pos n hn [], ih _ hlt (idChar (n % BASE) :: acc),
        ih _ hlt [idChar (n % BASE)]]
      simp

lemma aux_decomp (n : Nat) (hn : n ≠ 0) :
    idToBase62Aux n [] = idToBase62Aux (n / BASE) [] ++ [idChar (n % BASE)] := by
  rw [aux_pos n hn [], aux_append]

lemma aux_ne_nil (n : Nat) (hn : n ≠ 0) : idToBase62Aux n [] ≠ [] := by
  rw [aux_decomp n hn]; simp

lemma aux_mem (n : Nat) : ∀ c ∈ idToBase62Aux n [], BASE62_ALPHABET.contains c = true := by
  induction n using Nat.strong_induction_on with
  | _ n ih =>
    intro c hc
    by_cases hn : n = 0
    · subst hn; rw [aux_zero] at hc; cases hc
    · rw [aux_decomp n hn] at hc
      rcases List.mem_append.mp hc with h | h
      · exact ih _ (Nat.div_lt_self (Nat.pos_of_ne_zero hn) (by decide)) c h
      · have : c = idChar (n % BASE) := List.mem_singleton.mp h
        subst this
        have h62 : ∀ d < 62, BASE62_ALPHABET.contains (idChar d) = true := by decide
        exact h62 _ (Nat.mod_lt _ (by decide))

lemma aux_foldl (n : Nat) : ∀ r : Nat,
    (idToBase62Aux n []).foldl (fun r c => r * BASE + charVal c) r
      = r * BASE ^ (idToBase62Aux n []).length + n := by
  induction n using Nat.strong_induction_on with
  | _ n ih =>
    intro r
    by_cases hn : n = 0
    · subst hn; simp [aux_zero]
    · have hlt : n / BASE < n := Nat.div_lt_self (Nat.pos_of_ne_zero hn) (by decide)
      have hval : charVal (idChar (n % BASE)) = n % BASE := by
        have h62 : ∀ d < 62, charVal (idChar d) = d := by decide
        exact h62 _ (Nat.mod_lt _ (by decide))
      rw [aux_decomp n hn, List.foldl_append]
      simp only [List.foldl_cons, List.foldl_nil, List.length_append, List.length_singleton]
      rw [ih _ hlt r, hval]
      have : (r * BASE ^ (idToBase62Aux (n / BASE) []).length + n / BASE) * BASE + n % BASE
          = r * BASE ^ ((idToBase62Aux (n / BASE) []).length + 1)
              + (BASE * (n / BASE) + n % BASE) := by
        ring
      rw [this, Nat.div_add_mod]

lemma aux_digits (n : Nat) :
    (idToBase62Aux n []).reverse.map charVal = Nat.digits 62 n := by
  induction n using Nat.strong_induction_on with
  | _ n ih =>
    by_cases hn : n = 0
    · subst hn; simp [aux_zero]
    · have hlt : n / BASE < n := Nat.div_lt_self (Nat.pos_of_ne_zero hn) (by decide)
      have hval : charVal (idChar (n % BASE)) = n % BASE := by
        have h62 : ∀ d < 62, charVal (idChar d) = d := by decide
        exact h62 _ (Nat.mod_lt _ (by decide))
      rw [aux_decomp n hn]
      rw [Nat.digits_def' (by norm_num : 1 < 62) (Nat.pos_of_ne_zero hn)]
      simp only [List.reverse_append, List.reverse_singleton, List.singleton_append,
        List.map_cons, hval]
      rw [ih _ hlt]
      rfl

lemma aux_head (n : Nat) (hn : n ≠ 0) : (idToBase62Aux n []).head? ≠ some '0' := by
  induction n using Nat.strong_induction_on with
  | _ n ih =>
    by_cases hsmall : n / BASE = 0
    · rw [aux_decomp n hn, hsmall, aux_zero, List.nil_append]
      have hn62 : n < 62 := (Nat.div_eq_zero_iff (by decide)).mp hsmall
      have hlt62 : n % BASE = n := Nat.mod_eq_of_lt hn62
      rw [hlt62]
      have h62 : ∀ d < 62, d ≠ 0 → idChar d ≠ '0' := by decide
      simp only [List.head?_cons, ne_eq, Option.some.injEq]
      exact h62 n hn62 hn
    · rw [aux_decomp n hn]
      have hne := aux_ne_nil (n / BASE) hsmall
      have hlt : n / BASE < n := Nat.div_lt_self (Nat.pos_of_ne_zero hn) (by decide)
      have := ih _ hlt hsmall
      cases h : idToBase62Aux (n / BASE) [] with
      | nil => exact absurd h hne
      | cons a l => rw [h] at this; simpa using this

lemma string_length_eq_zero_iff (s : String) : s.length = 0 ↔ s = "" := by
  cases s with
  | mk data => simp [String.length, String.ext_iff]

/-- C1: for every non-negative integer `n`, decoding the encoding of `n`
returns `n` again — `idToBase62` and `base62ToId` are mutual inverses
over the non-negative integers. -/
theorem base62ToId_idToBase62 (n : Nat) : base62ToId (idToBase62 n) = Except.ok n := by
  by_cases hn : n = 0
  · subst hn; rfl
  · have hrepr : idToBase62 n = String.mk (idToBase62Aux n []) := by
      simp [idToBase62, hn]
    rw [hrepr]
    have hlen : (String.mk (idToBase62Aux n [])).length = (idToBase62Aux n []).length := rfl
    have htl : (String.mk (idToBase62Aux n [])).toList = idToBase62Aux n [] := rfl
    unfold base62ToId
    rw [hlen, htl, if_neg (fun h => aux_ne_nil n hn (List.length_eq_zero.mp h)),
      if_pos (List.all_eq_true.mpr (fun c hc => aux_mem n c hc))]
    have := aux_foldl n 0
    simp only [Nat.zero_mul, Nat.zero_add] at this
    rw [this]

/-- C7: `idToBase62` is standard base-62 positional encoding over the
alphabet digits, lowercase, uppercase, most-significant digit first:
`idToBase62 0 = "0"`, `idToBase62 61 = "Z"`, `idToBase62 62 = "10"`,
the digit values of the output read least-significant first are exactly
`Nat.digits 62 n`, and for positive `n` the output never starts with the
zero symbol. -/
theorem idToBase62_positional_encoding (n : Nat) (hn : 0 < n) :
    idToBase62 0 = "0" ∧ idToBase62 61 = "Z" ∧ idToBase62 62 = "10" ∧
    (idToBase62 n).toList.reverse.map charVal = Nat.digits 62 n ∧
    (idToBase62 n).toList.head? ≠ some '0' := by
  have htl : (idToBase62 n).toList = idToBase62Aux n [] := by
    simp [idToBase62, hn.ne']
  refine ⟨rfl, ?_, ?_, ?_, ?_⟩
  · rw [idToBase62, if_neg (by decide), aux_pos 61 (by decide) []]
    simp [BASE, aux_zero]
    decide
  · rw [idToBase62, if_neg (by decide), aux_pos 62 (by decide) []]
    simp only [BASE, Nat.reduceDiv, Nat.reduceMod]
    rw [aux_pos 1 (by decide)]
    simp only [BASE, Nat.reduceDiv, Nat.reduceMod]
    rw [aux_zero]
    decide
  · rw [htl]; exact aux_digits n
  · rw [htl]; exact aux_head n hn.ne'

/-- C7 witness: the positional-encoding theorem instantiated at `n = 62`. -/
theorem idToBase62_positional_encoding_witness :
    idToBase62 0 = "0" ∧ idToBase62 61 = "Z" ∧ idToBase62 62 = "10" ∧
    (idToBase62 62).toList.reverse.map charVal = Nat.digits 62 62 ∧
    (idToBase62 62).toList.head? ≠ some '0' :=
  idToBase62_positional_encoding 62 (by decide)

/-- C8: `base62ToId` errors on the empty string and on any string with a
character outside the alphabet; on every non-empty all-alphabet string it
succeeds with the left-to-right accumulation
`result = result * 62 + digitValue`. -/
theorem base62ToId_validation (s : String) :
    (∃ e, base62ToId "" = Except.error e) ∧
    ((∃ c ∈ s.toList, BASE62_ALPHABET.contains c = false) →
      ∃ e, base62ToId s = Except.error e) ∧
    (s ≠ "" → (∀ c ∈ s.toList, BASE62_ALPHABET.contains c = true) →
      base62ToId s = Except.ok (s.toList.foldl (fun r c => r * BASE + charVal c) 0)) := by
  refine ⟨⟨_, rfl⟩, ?_, ?_⟩
  · rintro ⟨c, hc, hbad⟩
    unfold base62ToId
    by_cases hlen : s.length = 0
    · rw [if_pos hlen]; exact ⟨_, rfl⟩
    · rw [if_neg hlen]
      have hall : s.toList.all (fun c => BASE62_ALPHABET.contains c) = false := by
        rw [List.all_eq_false]
        exact ⟨c, hc, by rw [hbad]; exact Bool.false_ne_true⟩
      simp only [hall]
      exact ⟨_, rfl⟩
  · intro hne hall
    unfold base62ToId
    rw [if_neg (fun h => hne ((string_length_eq_zero_iff s).mp h)),
      if_pos (List.all_eq_true.mpr (fun c hc => hall c hc))]

/-- C8 witness: the validation theorem applied at `"a!"` (invalid
character) and `"10"` (valid, decoding to 62). -/
theorem base62ToId_validation_witness :
    (∃ e, base62ToId "" = Except.error e) ∧
    (∃ e, base62ToId "a!" = Except.error e) ∧
    base62ToId "10" = Except.ok 62 := by
  refine ⟨(base62ToId_validation "a!").1, ?_, ?_⟩
  · exact (base62ToId_validation "a!").2.1 ⟨'!', by decide, by decide⟩
  · exact ((base62ToId_validation "10").2.2 (by decide) (by decide)).trans rfl

/-- C10: at the dynamically typed boundary, `idToBase62` throws on every
negative integer, on non-integer numbers and on strings, and `base62ToId`
throws on every non-string argument. -/
theorem codec_rejects_malformed_arguments :
    (∀ n : Int, n < 0 → ∃ e, idToBase62Js (JSValue.intNum n) = Except.error e) ∧
    (∃ e, idToBase62Js JSValue.nonIntNum = Except.error e) ∧
    (∀ s : String, ∃ e, idToBase62Js (JSValue.str s) = Except.error e) ∧
    (∀ v : JSValue, (∀ s, v ≠ JSValue.str s) → ∃ e, base62ToIdJs v = Except.error e) := by
  refine ⟨?_, ⟨_, rfl⟩, fun s => ⟨_, rfl⟩, ?_⟩
  · intro n hn
    simp only [idToBase62Js, if_pos hn]
    exact ⟨_, rfl⟩
  · intro v hv
    cases v with
    | str s => exact absurd rfl (hv s)
    | intNum n => exact ⟨_, rfl⟩
    | nonIntNum => exact ⟨_, rfl⟩
    | other => exact ⟨_, rfl⟩

/-- C10 witness: the boundary theorem applied at `-1` and at a non-string
value. -/
theorem codec_rejects_malformed_arguments_witness :
    (∃ e, idToBase62Js (JSValue.intNum (-1)) = Except.error e) ∧
    (∃ e, base62ToIdJs JSValue.other = Except.error e) :=
  ⟨codec_rejects_malformed_arguments.1 (-1) (by decide),
   codec_rejects_malformed_arguments.2.2.2 JSValue.other (fun s h => by cases h)⟩

/-! Data model and adapters for the write and read pipelines. -/

/-- A row of the `urls` table (`db/schema.sql`): store-assigned `id`,
derived `short_code`, the validated `original_url`, optional expiry
timestamp and the click counter.  Timestamps are modelled as `Int`
(milliseconds, the value of a JS `Date`). -/
structure UrlRecord where
  id : Nat
  short_code : String
  original_url : String
  expires_at : Option Int
  click_count : Nat
deriving DecidableEq, Repr

/-- The persistent store: the `urls` rows plus the BIGSERIAL counter that
assigns the next `id`. -/
structure Db where
  urls : List UrlRecord
  nextId : Nat
deriving DecidableEq, Repr

/-- The in-memory cache of `cache/client.js`, a map from short code to
URL. -/
abbrev CacheMap := List (String × String)

/-- Raw map lookup (`memoryCache.get(key)`): the stored value, if any. -/
def cacheLookup (m : CacheMap) (k : String) : Option String :=
  (m.find? (fun p => p.1 = k)).map Prod.snd

/-- `cache.get` of `cache/client.js`: `memoryCache.get(key) || null` —
a stored empty string is falsy and comes back as null. -/
def cacheGet (m : CacheMap) (k : String) : Option String :=
  match cacheLookup m k with
  | some v => if v = "" then none else some v
  | none => none

/-- `cache.set`: overwrite the entry for `k` with `v`. -/
def cacheSet (m : CacheMap) (k v : String) : CacheMap :=
  (k, v) :: m.filter (fun p => p.1 ≠ k)

/-- Fault model of the cache adapter for one request: whether the client
is connected and whether the `get`/`set` calls throw. -/
structure CacheBehavior where
  isReady : Bool
  getThrows : Bool
  setThrows : Bool
deriving DecidableEq, Repr

/-- `SELECT ... WHERE short_code = $1`: first row with the given code. -/
def dbFindByCode (urls : List UrlRecord) (code : String) : Option UrlRecord :=
  urls.find? (fun r => r.short_code = code)

/-- The expiry test used by the read path and the cleanup job:
`expires_at` is set and strictly before now. -/
def isExpiredAt (r : UrlRecord) (now : Int) : Bool :=
  match r.expires_at with
  | some t => t < now
  | none => false

/-- Steps 2 to 4 of `RedirectService.getOriginalUrl` (the path taken on a
cache miss): query the store by code, return null when absent, return
null when the record has expired (the store/cache delete there is
fire-and-forget and not awaited), otherwise warm the cache — the warm is
awaited but wrapped, so a set failure leaves the state alone — and return
the stored URL. -/
def readFromStore (cb : CacheBehavior) (cacheSt : CacheMap) (urls : List UrlRecord)
    (now : Int) (shortCode : String) : Option String × CacheMap :=
  match dbFindByCode urls shortCode with
  | none => (none, cacheSt)
  | some r =>
    if isExpiredAt r now then (none, cacheSt)
    else
      (some r.original_url,
        if cb.isReady && !cb.setThrows then cacheSet cacheSt shortCode r.original_url
        else cacheSt)

/-- `RedirectService.getOriginalUrl`: cache-first lookup.  The `get` is
attempted only when the client is ready, and a thrown `get` is caught,
leaving `cachedUrl` undefined; a truthy cached value is returned as is,
anything else falls through to the store. -/
def getOriginalUrl (cb : CacheBehavior) (cacheSt : CacheMap) (urls : List UrlRecord)
    (now : Int) (shortCode : String) : Option String × CacheMap :=
  let cachedUrl : Option String :=
    if cb.isReady && !cb.getThrows then cacheGet cacheSt shortCode else none
  match cachedUrl with
  | some v => if v = "" then readFromStore cb cacheSt urls now shortCode else (some v, cacheSt)
  | none => readFromStore cb cacheSt urls now shortCode

/-! The write pipeline of `url-service.js`. -/

/-- `config.app.baseUrl` default. -/
def baseUrl : String := "http://localhost:3000"

/-- `config.app.maxUrlLength`. -/
def maxUrlLength : Nat := 2048

/-- Character-list prefix test, the semantics of the JS
`String.prototype.startsWith`. -/
def charsStartsWith : List Char → List Char → Bool
  | _, [] => true
  | [], _ :: _ => false
  | c :: cs, p :: ps => c = p && charsStartsWith cs ps

/-- `startsWith` on strings, via the character lists. -/
def strStartsWith (s pre : String) : Bool :=
  charsStartsWith s.toList pre.toList

/-- The JS `String.prototype.trim`: drop leading and trailing
whitespace. -/
def jsTrim (s : String) : String :=
  String.mk (((s.toList.dropWhile Char.isWhitespace).reverse.dropWhile
    Char.isWhitespace).reverse)

/-- Modelled from the spec: the "general URL-syntax validation" of §4.2
step 1, performed in the source by the external npm `validator` library
(`validator.isURL` with `require_protocol` and protocols http/https),
which is a third-party dependency not part of this repository.  The
model requires an `http://` or `https://` scheme followed by a nonempty
host and forbids whitespace and angle brackets. -/
def validator_isURL (s : String) : Bool :=
  let rest : Option (List Char) :=
    if strStartsWith s "http://" then some (s.toList.drop 7)
    else if strStartsWith s "https://" then some (s.toList.drop 8)
    else none
  match rest with
  | none => false
  | some r =>
    let host := r.takeWhile (fun c => c ≠ '/' && c ≠ '?' && c ≠ '#')
    !host.isEmpty && s.toList.all (fun c => !c.isWhitespace && c ≠ '<' && c ≠ '>')

/-- Step 1 of `UrlService.createShortUrl`: the URL must be a non-empty
string; it is trimmed, must pass URL validation, and (after trimming)
must not exceed `maxUrlLength`.  Returns the trimmed URL. -/
def validateUrl (input : JSValue) : Except String String :=
  match input with
  | JSValue.str s =>
    if s = "" then Except.error "URL is required"
    else
      let trimmed := jsTrim s
      if !validator_isURL trimmed then
        Except.error "Invalid URL format. Must include http or https"
      else if trimmed.length > maxUrlLength then
        Except.error "URL too long. Maximum length is 2048 characters"
      else Except.ok trimmed
  | _ => Except.error "URL is required"

/-- The result object of `createShortUrl`. -/
structure CreateResult where
  shortCode : String
  shortUrl : String
  originalUrl : String
  isNew : Bool
deriving DecidableEq, Repr

/-- `UrlService.createShortUrl`: validate, deduplicate (only without an
expiry; a thrown store query is swallowed, modelled by `dedupThrows`),
insert a record under the next store id, derive the short code with
`idToBase62`, and warm the cache (a set failure is swallowed).  The
result is returned together with the store and cache after the call. -/
def createShortUrl (input : JSValue) (expires : Option Int) (dedupThrows : Bool)
    (cb : CacheBehavior) (db : Db) (cacheSt : CacheMap) :
    Except String CreateResult × Db × CacheMap :=
  match validateUrl input with
  | Except.error e => (Except.error e, db, cacheSt)
  | Except.ok url =>
    let dup : Option UrlRecord :=
      if expires.isNone && !dedupThrows then
        db.urls.find? (fun r => r.original_url = url && r.expires_at.isNone)
      else none
    match dup with
    | some r =>
      (Except.ok ⟨r.short_code, baseUrl ++ "/" ++ r.short_code, url, false⟩, db, cacheSt)
    | none =>
      let id := db.nextId
      let code := idToBase62 id
      let db' : Db := ⟨db.urls ++ [⟨id, code, url, expires, 0⟩], id + 1⟩
      let cacheSt' :=
        if cb.isReady && !cb.setThrows then cacheSet cacheSt code url else cacheSt
      (Except.ok ⟨code, baseUrl ++ "/" ++ code, url, true⟩, db', cacheSt')

/-- The `expires_at` body field of `POST /api/shorten` as seen by the
route handler: absent (or falsy), unparseable (`new Date` gives NaN), or
parsed to a timestamp. -/
inductive ExpiryInput where
  | absent
  | invalid
  | at (t : Int)
deriving DecidableEq, Repr

/-- The expiry validation of the `POST /api/shorten` handler in
`routes.js`: absent passes as null, unparseable is rejected, and a
parsed timestamp is rejected exactly when `expiresAt < new Date()`. -/
def validateExpiresAt (e : ExpiryInput) (now : Int) : Except String (Option Int) :=
  match e with
  | ExpiryInput.absent => Except.ok none
  | ExpiryInput.invalid =>
    Except.error "Invalid expires_at format. Use ISO 8601 format"
  | ExpiryInput.at t =>
    if t < now then Except.error "expires_at must be in the future"
    else Except.ok (some t)

/-- `cacheDel`: `cache.del(key)`. -/
def cacheDel (m : CacheMap) (k : String) : CacheMap :=
  m.filter (fun p => p.1 ≠ k)

/-- `UrlService.cleanupExpiredUrls`: delete every row with a set, passed
`expires_at` (SQL `expires_at IS NOT NULL AND expires_at < NOW()`),
best-effort evict each deleted code from the cache, and return the
deleted row count. -/
def cleanupExpiredUrls (db : Db) (cacheSt : CacheMap) (now : Int) :
    Nat × Db × CacheMap :=
  let deleted := db.urls.filter (fun r => isExpiredAt r now)
  let remaining := db.urls.filter (fun r => !isExpiredAt r now)
  let cacheSt' := deleted.foldl (fun m r => cacheDel m r.short_code) cacheSt
  (deleted.length, ⟨remaining, db.nextId⟩, cacheSt')

end Linkly

deriving instance DecidableEq for Except

namespace Linkly

/-- C2 counterexample: with the cache holding the entry `("x", "")`, the
read path does not return the cached URL `""` — the cache client maps a
stored empty string to null (`memoryCache.get(key) || null`), so the
lookup falls through to the (empty) store and yields null. -/
theorem getOriginalUrl_empty_cache_entry :
    cacheLookup [("x", "")] "x" = some "" ∧
    (getOriginalUrl ⟨true, false, false⟩ [("x", "")] [] 0 "x").1 ≠ some "" := by
  constructor
  · rfl
  · decide

/-- C2 (amended): `getOriginalUrl` returns the cached URL whenever the
operational cache holds a non-empty entry for the code; on a cache miss
(cache not ready, `get` thrown, or no truthy value) it returns null when
no record exists, null when the record has a passed expiry, and the
stored URL otherwise. -/
theorem getOriginalUrl_spec (cb : CacheBehavior) (cacheSt : CacheMap)
    (urls : List UrlRecord) (now : Int) (code : String) :
    (∀ v, cb.isReady = true → cb.getThrows = false →
      cacheLookup cacheSt code = some v → v ≠ "" →
      (getOriginalUrl cb cacheSt urls now code).1 = some v) ∧
    ((cb.isReady = false ∨ cb.getThrows = true ∨ cacheGet cacheSt code = none) →
      ((dbFindByCode urls code = none →
          (getOriginalUrl cb cacheSt urls now code).1 = none) ∧
       (∀ r, dbFindByCode urls code = some r →
         ((∀ t, r.expires_at = some t → t < now →
             (getOriginalUrl cb cacheSt urls now code).1 = none) ∧
          (isExpiredAt r now = false →
             (getOriginalUrl cb cacheSt urls now code).1 = some r.original_url))))) := by
  constructor
  · intro v hr hg hl hv
    simp only [getOriginalUrl, hr, hg, Bool.not_false, Bool.and_self, if_true,
      cacheGet, hl, if_neg hv]
  · intro hmiss
    have hnone : (if cb.isReady && !cb.getThrows then cacheGet cacheSt code else none)
        = none := by
      rcases hmiss with h | h | h
      · simp [h]
      · simp [h]
      · by_cases hr : cb.isReady && !cb.getThrows <;> simp [hr, h]
    have hgo : getOriginalUrl cb cacheSt urls now code
        = readFromStore cb cacheSt urls now code := by
      simp only [getOriginalUrl, hnone]
    rw [hgo]
    constructor
    · intro hfind
      simp [readFromStore, hfind]
    · intro r hfind
      constructor
      · intro t ht hlt
        have hexp : isExpiredAt r now = true := by
          simp [isExpiredAt, ht, hlt]
        simp [readFromStore, hfind, hexp]
      · intro hexp
        simp [readFromStore, hfind, hexp]

/-- C2 witness: the amended theorem applied to a cache holding the entry
`("c", "https://e.com")` with an empty store. -/
theorem getOriginalUrl_spec_witness :
    (getOriginalUrl ⟨true, false, false⟩ [("c", "https://e.com")] [] 0 "c").1
      = some "https://e.com" :=
  (getOriginalUrl_spec ⟨true, false, false⟩ [("c", "https://e.com")] [] 0 "c").1
    "https://e.com" rfl rfl (by decide) (by decide)

/-- C6: cache failures never surface: a thrown cache `get` makes the read
path behave exactly like the store path, and a thrown cache `set` during
warming changes neither the value returned by `getOriginalUrl` nor the
result and store state of `createShortUrl`. -/
theorem cache_failures_nonfatal (ready setTh : Bool) (cacheSt : CacheMap)
    (urls : List UrlRecord) (now : Int) (code : String)
    (input : JSValue) (expires : Option Int) (dedupThrows : Bool) (db : Db) :
    (getOriginalUrl ⟨ready, true, setTh⟩ cacheSt urls now code
      = readFromStore ⟨ready, true, setTh⟩ cacheSt urls now code) ∧
    (∀ g : Bool, (getOriginalUrl ⟨ready, g, true⟩ cacheSt urls now code).1
      = (getOriginalUrl ⟨ready, g, false⟩ cacheSt urls now code).1) ∧
    (∀ g : Bool,
      (createShortUrl input expires dedupThrows ⟨ready, g, true⟩ db cacheSt).1
        = (createShortUrl input expires dedupThrows ⟨ready, g, false⟩ db cacheSt).1 ∧
      (createShortUrl input expires dedupThrows ⟨ready, g, true⟩ db cacheSt).2.1
        = (createShortUrl input expires dedupThrows ⟨ready, g, false⟩ db cacheSt).2.1) := by
  have hread : ∀ s₁ s₂ g : Bool,
      (readFromStore ⟨ready, g, s₁⟩ cacheSt urls now code).1
        = (readFromStore ⟨ready, g, s₂⟩ cacheSt urls now code).1 := by
    intro s₁ s₂ g
    cases hfind : dbFindByCode urls code with
    | none => simp [readFromStore, hfind]
    | some r =>
      by_cases hexp : isExpiredAt r now <;> simp [readFromStore, hfind, hexp]
  refine ⟨?_, ?_, ?_⟩
  · simp [getOriginalUrl]
  · intro g
    simp only [getOriginalUrl]
    cases hc : (if (⟨ready, g, true⟩ : CacheBehavior).isReady
        && !(⟨ready, g, true⟩ : CacheBehavior).getThrows
        then cacheGet cacheSt code else none) with
    | none => simpa [hc] using hread true false g
    | some v =>
      by_cases hv : v = ""
      · simpa [hc, hv] using hread true false g
      · simp [hc, hv]
  · intro g
    cases hval : validateUrl input with
    | error e => simp [createShortUrl, hval]
    | ok url =>
      simp only [createShortUrl, hval]
      cases hdup : (if expires.isNone && !dedupThrows then
          db.urls.find? (fun r => r.original_url = url && r.expires_at.isNone)
        else none) with
      | none => simp [hdup]
      | some r => simp [hdup]

/-- C3: for a no-expiry create on a validated URL, a non-expiring store
record with the identical URL is returned as is with `isNew = false` and
the store untouched, and a thrown dedup lookup is swallowed: creation
proceeds, inserts the new record under the next id and returns
`isNew = true`. -/
theorem createShortUrl_dedup (input : JSValue) (url : String)
    (hv : validateUrl input = Except.ok url)
    (cb : CacheBehavior) (db : Db) (cacheSt : CacheMap) :
    (∀ r, db.urls.find? (fun r => r.original_url = url && r.expires_at.isNone) = some r →
      createShortUrl input none false cb db cacheSt
        = (Except.ok ⟨r.short_code, baseUrl ++ "/" ++ r.short_code, url, false⟩,
           db, cacheSt)) ∧
    (createShortUrl input none true cb db cacheSt
      = (Except.ok ⟨idToBase62 db.nextId, baseUrl ++ "/" ++ idToBase62 db.nextId,
           url, true⟩,
         ⟨db.urls ++ [⟨db.nextId, idToBase62 db.nextId, url, none, 0⟩], db.nextId + 1⟩,
         if cb.isReady && !cb.setThrows then
           cacheSet cacheSt (idToBase62 db.nextId) url
         else cacheSt)) := by
  constructor
  · intro r hfind
    simp [createShortUrl, hv, hfind]
  · simp [createShortUrl, hv]

/-- C3 witness: the dedup theorem applied to a store already holding a
non-expiring record for the URL, and to a failing dedup lookup. -/
theorem createShortUrl_dedup_witness :
    createShortUrl (JSValue.str "https://a.com") none false ⟨true, false, false⟩
        ⟨[⟨1, "1", "https://a.com", none, 0⟩], 2⟩ []
      = (Except.ok ⟨"1", baseUrl ++ "/" ++ "1", "https://a.com", false⟩,
         ⟨[⟨1, "1", "https://a.com", none, 0⟩], 2⟩, []) :=
  (createShortUrl_dedup (JSValue.str "https://a.com") "https://a.com" (by decide)
      ⟨true, false, false⟩ ⟨[⟨1, "1", "https://a.com", none, 0⟩], 2⟩ []).1
    ⟨1, "1", "https://a.com", none, 0⟩ (by decide)

/-- C4: every create request whose URL is not a string, empty, longer
than 2048 characters after trimming, without an http/https scheme, or
failing URL-syntax validation is rejected with a validation error, and
neither the store nor the cache changes. -/
theorem createShortUrl_rejects_invalid (input : JSValue) (expires : Option Int)
    (dedupThrows : Bool) (cb : CacheBehavior) (db : Db) (cacheSt : CacheMap)
    (h : (∀ s, input ≠ JSValue.str s) ∨
         input = JSValue.str "" ∨
         (∃ s, input = JSValue.str s ∧
           ((jsTrim s).length > maxUrlLength ∨
            (strStartsWith (jsTrim s) "http://" = false ∧
             strStartsWith (jsTrim s) "https://" = false) ∨
            validator_isURL (jsTrim s) = false))) :
    (∃ e, (createShortUrl input expires dedupThrows cb db cacheSt).1
        = Except.error e) ∧
    (createShortUrl input expires dedupThrows cb db cacheSt).2.1 = db ∧
    (createShortUrl input expires dedupThrows cb db cacheSt).2.2 = cacheSt := by
  have hscheme : ∀ u : String, validator_isURL u = true →
      strStartsWith u "http://" = true ∨ strStartsWith u "https://" = true := by
    intro u hs
    by_cases h1 : strStartsWith u "http://"
    · exact Or.inl h1
    · by_cases h2 : strStartsWith u "https://"
      · exact Or.inr h2
      · simp [validator_isURL, h1, h2] at hs
  have herr : ∃ e, validateUrl input = Except.error e := by
    rcases h with hns | hemp | ⟨s, rfl, hbad⟩
    · cases input with
      | str s => exact absurd rfl (hns s)
      | intNum n => exact ⟨_, rfl⟩
      | nonIntNum => exact ⟨_, rfl⟩
      | other => exact ⟨_, rfl⟩
    · rw [hemp]; exact ⟨_, rfl⟩
    · by_cases hemp : s = ""
      · rw [hemp]; exact ⟨_, rfl⟩
      · by_cases hurl : validator_isURL (jsTrim s)
        · have hlen : (jsTrim s).length > maxUrlLength := by
            rcases hbad with hb | hb | hb
            · exact hb
            · rcases hscheme _ hurl with hsw | hsw
              · rw [hb.1] at hsw; cases hsw
              · rw [hb.2] at hsw; cases hsw
            · rw [hurl] at hb; cases hb
          have hres : validateUrl (JSValue.str s)
              = Except.error "URL too long. Maximum length is 2048 characters" := by
            simp only [validateUrl, if_neg hemp, hurl, Bool.not_true, Bool.false_eq_true,
              if_false, if_pos hlen]
          exact ⟨_, hres⟩
        · have hf : validator_isURL (jsTrim s) = false := by
            simpa using hurl
          have hres : validateUrl (JSValue.str s)
              = Except.error "Invalid URL format. Must include http or https" := by
            simp only [validateUrl, if_neg hemp]
            rw [if_pos (show (!validator_isURL (jsTrim s)) = true by rw [hf]; rfl)]
          exact ⟨_, hres⟩
  obtain ⟨e, he⟩ := herr
  refine ⟨⟨e, ?_⟩, ?_, ?_⟩ <;> simp [createShortUrl, he]

/-- C4 witness: the rejection theorem applied to the schemeless string
input `"notaurl"`. -/
theorem createShortUrl_rejects_invalid_witness :
    (∃ e, (createShortUrl (JSValue.str "notaurl") none false ⟨true, false, false⟩
        ⟨[], 1⟩ []).1 = Except.error e) ∧
    (createShortUrl (JSValue.str "notaurl") none false ⟨true, false, false⟩
        ⟨[], 1⟩ []).2.1 = (⟨[], 1⟩ : Db) ∧
    (createShortUrl (JSValue.str "notaurl") none false ⟨true, false, false⟩
        ⟨[], 1⟩ []).2.2 = ([] : CacheMap) :=
  createShortUrl_rejects_invalid (JSValue.str "notaurl") none false
    ⟨true, false, false⟩ ⟨[], 1⟩ []
    (Or.inr (Or.inr ⟨"notaurl", rfl, Or.inr (Or.inl ⟨by decide, by decide⟩)⟩))

/-- C5 counterexample: an expiry timestamp equal to the current time is
accepted by the route handler (`expiresAt < new Date()` is strict), not
rejected as the claim states. -/
theorem validateExpiresAt_accepts_now :
    validateExpiresAt (ExpiryInput.at 0) 0 = Except.ok (some 0) := rfl

/-- C5 (amended): an unparseable expiry is rejected, an expiry strictly
in the past is rejected, and an expiry at or after the current time is
accepted (in particular, one equal to the current time passes). -/
theorem validateExpiresAt_spec (t now : Int) :
    (∃ e, validateExpiresAt ExpiryInput.invalid now = Except.error e) ∧
    (t < now → ∃ e, validateExpiresAt (ExpiryInput.at t) now = Except.error e) ∧
    (now ≤ t → validateExpiresAt (ExpiryInput.at t) now = Except.ok (some t)) ∧
    validateExpiresAt ExpiryInput.absent now = Except.ok none := by
  refine ⟨⟨_, rfl⟩, ?_, ?_, rfl⟩
  · intro h
    simp only [validateExpiresAt, if_pos h]
    exact ⟨_, rfl⟩
  · intro h
    simp only [validateExpiresAt, if_neg (not_lt.mpr h)]

/-- C5 witness: the amended theorem applied at a past and a future
timestamp. -/
theorem validateExpiresAt_spec_witness :
    (∃ e, validateExpiresAt (ExpiryInput.at 1) 2 = Except.error e) ∧
    validateExpiresAt (ExpiryInput.at 2) 1 = Except.ok (some 2) :=
  ⟨(validateExpiresAt_spec 1 2).2.1 (by norm_num),
   (validateExpiresAt_spec 2 1).2.2.1 (by norm_num)⟩

/-- C9: the cleanup job returns the count of the records with a set,
passed expiry, keeps exactly the records without one, and is idempotent:
run again right away it deletes 0 records. -/
theorem cleanupExpiredUrls_spec (db : Db) (cacheSt : CacheMap) (now : Int) :
    (cleanupExpiredUrls db cacheSt now).1
        = (db.urls.filter (fun r => isExpiredAt r now)).length ∧
    (∀ r, r ∈ (cleanupExpiredUrls db cacheSt now).2.1.urls ↔
        r ∈ db.urls ∧ isExpiredAt r now = false) ∧
    (cleanupExpiredUrls (cleanupExpiredUrls db cacheSt now).2.1
        (cleanupExpiredUrls db cacheSt now).2.2 now).1 = 0 := by
  refine ⟨rfl, ?_, ?_⟩
  · intro r
    simp [cleanupExpiredUrls, List.mem_filter]
  · simp only [cleanupExpiredUrls]
    rw [List.length_eq_zero, List.filter_eq_nil_iff]
    intro a ha
    have := (List.mem_filter.mp ha).2
    simp only [Bool.not_eq_true'] at this
    simp [this]

end Linkly
